import Mathlib

/-!
Verification of the `agent_communication` repository (a typed, broker-backed
publish/subscribe layer). This file gives a shallow embedding of the parts of
the source relevant to the channel grammar, the wildcard matchers, the message
codec, the subscription table, the delivery de-duplicators and the agent
façade, and proves or refutes the spec's claims about them.

Strings from the Python source are modelled as `List Char` (so that a channel
is its character sequence; Python `str.split`, `str.replace` and `re.match`
act on the same sequence).
-/

namespace AgentComm

/-! ## Channel grammar (src/agent_communication/channels.py, utils.py) -/

/-- The regex fragment produced by the two pattern translators in the source:
`lit c` is a literal character, `dot` is regex `.` (any single character),
`starNC` is regex `[^:]*` (any run of non-colon characters), `starAny` is
regex `.*` (any run of characters). -/
inductive RItem where
  | lit (c : Char)
  | dot
  | starNC
  | starAny
deriving DecidableEq, Repr

/-- Star matching: try the continuation `f` on `s` and on each of its tails,
a tail being reachable only by consuming characters the star may absorb
(`allowColon = false` for `[^:]*`, `true` for `.*`). -/
def tryTails (f : List Char → Bool) (allowColon : Bool) : List Char → Bool
  | [] => f []
  | d :: ds => f (d :: ds) || ((allowColon || d != ':') && tryTails f allowColon ds)

/-- Anchored matching of a compiled regex (a `List RItem`) against a string,
the semantics of Python `re.match(f"^\x7bregex\x7d$", channel)` for the regex
fragment generated by the source's pattern translation. -/
def rmatch : List RItem → List Char → Bool
  | [], s => s.isEmpty
  | .lit _ :: _, [] => false
  | .lit c :: rs, d :: ds => c == d && rmatch rs ds
  | .dot :: _, [] => false
  | .dot :: rs, _ :: ds => rmatch rs ds
  | .starNC :: rs, s => tryTails (rmatch rs) false s
  | .starAny :: rs, s => tryTails (rmatch rs) true s

/-- `ChannelManager.match_pattern`'s regex construction:
`pattern.replace("**", ".*").replace("*", "[^:]*")`.  The first replace maps
each (leftmost, non-overlapping) `**` to `.*`; the second replace then hits
every remaining `*` — including the one just inserted by the first replace —
so `**` ends up as `.[^:]*` and a lone `*` as `[^:]*`.  A literal `.` in the
pattern stays `.` in the regex, i.e. matches any character.  (Characters other
than `*` and `.` are modelled as regex literals; this is faithful for patterns
built from alphanumerics, `:` and `*`, which is all the theorems below use.) -/
def compileChan : List Char → List RItem
  | [] => []
  | c :: rest =>
      if c = '*' then
        match rest with
        | c2 :: rest2 =>
            if c2 = '*' then .dot :: .starNC :: compileChan rest2
            else .starNC :: compileChan (c2 :: rest2)
        | [] => [.starNC]
      else if c = '.' then .dot :: compileChan rest
      else .lit c :: compileChan rest

/-- `AbstractRouter._matches_pattern`'s regex construction:
`pattern.replace("*", ".*")` — every `*` becomes `.*`, colons are not
protected. Same literal-character caveat as `compileChan`. -/
def compileRouter : List Char → List RItem
  | [] => []
  | c :: rest =>
      if c = '*' then .starAny :: compileRouter rest
      else if c = '.' then .dot :: compileRouter rest
      else .lit c :: compileRouter rest

/-- `ChannelManager.match_pattern(channel, pattern)` (channels.py lines 52-74):
early return on byte equality, else anchored regex match of the translated
pattern. -/
def matchPattern (channel pattern : List Char) : Bool :=
  if pattern = channel then true
  else rmatch (compileChan pattern) channel

/-- `AbstractRouter._matches_pattern(channel, pattern)` (routers/base.py lines
272-289): patterns without `*` compare by equality; otherwise anchored regex
match with every `*` replaced by `.*`. -/
def matchesRouter (channel pattern : List Char) : Bool :=
  if '*' ∉ pattern then channel = pattern
  else rmatch (compileRouter pattern) channel

/-- `ChannelManager.create_channel` (channels.py lines 10-24):
`f"{message_class}:{direction}:{session_id}"`. -/
def createChannel (messageClass direction sessionId : List Char) : List Char :=
  messageClass ++ [':'] ++ direction ++ [':'] ++ sessionId

/-- Helper for `channel_name.split(":")`: accumulator-based split. -/
def splitColonAux : List Char → List Char → List (List Char)
  | [], acc => [acc.reverse]
  | c :: rest, acc =>
      if c = ':' then acc.reverse :: splitColonAux rest []
      else splitColonAux rest (c :: acc)

/-- Python `channel_name.split(":")`. -/
def splitColon (l : List Char) : List (List Char) :=
  splitColonAux l []

/-- The result dictionary of `parse_channel`. -/
structure ChannelParts where
  message_class : List Char
  direction : List Char
  session_id : List Char
deriving DecidableEq, Repr

/-- The errors raised by the channel grammar. -/
inductive ChannelError where
  | invalidChannelFormat (channel : List Char)
deriving DecidableEq, Repr

/-- `parse_channel` (utils.py lines 7-28): split on `:`; exactly three parts
are required, otherwise `InvalidChannelFormat` is raised. -/
def parseChannel (channelName : List Char) : Except ChannelError ChannelParts :=
  match splitColon channelName with
  | [a, b, c] => .ok ⟨a, b, c⟩
  | _ => .error (.invalidChannelFormat channelName)

/-! ### Lemmas about splitting -/

theorem splitColonAux_no_colon (t acc : List Char) (h : ':' ∉ t) :
    splitColonAux t acc = [acc.reverse ++ t] := by
  induction t generalizing acc with
  | nil => simp [splitColonAux]
  | cons c rest ih =>
      have hc : c ≠ ':' := fun hc => h (hc ▸ List.mem_cons_self c rest)
      have hrest : ':' ∉ rest := fun hr => h (List.mem_cons_of_mem c hr)
      simp [splitColonAux, if_neg (fun hcc => hc hcc), ih _ hrest]

theorem splitColonAux_split (t rest acc : List Char) (h : ':' ∉ t) :
    splitColonAux (t ++ ':' :: rest) acc =
      (acc.reverse ++ t) :: splitColonAux rest [] := by
  induction t generalizing acc with
  | nil => simp [splitColonAux]
  | cons c t ih =>
      have hc : c ≠ ':' := fun hc => h (hc ▸ List.mem_cons_self c t)
      have ht : ':' ∉ t := fun hr => h (List.mem_cons_of_mem c hr)
      simp [splitColonAux, if_neg (fun hcc => hc hcc), ih _ ht]

theorem splitColon_createChannel (t d s : List Char)
    (ht : ':' ∉ t) (hd : ':' ∉ d) (hs : ':' ∉ s) :
    splitColon (createChannel t d s) = [t, d, s] := by
  unfold splitColon createChannel
  rw [show t ++ [':'] ++ d ++ [':'] ++ s = t ++ ':' :: (d ++ ':' :: s) by simp]
  rw [splitColonAux_split _ _ _ ht]
  rw [splitColonAux_split _ _ _ hd]
  rw [splitColonAux_no_colon _ _ hs]
  simp

/-! ### Segment-count analysis of the two matchers -/

/-- Does the pattern contain two adjacent stars (the `**` wildcard)? -/
def hasDStar : List Char → Bool
  | [] => false
  | [_] => false
  | c1 :: c2 :: rest => (c1 = '*' && c2 = '*') || hasDStar (c2 :: rest)

/-- Pattern alphabet on which the literal-character modelling of the regex
translation is exact: alphanumerics, `:` and `*` (no regex metacharacters). -/
def patOK (pat : List Char) : Bool :=
  pat.all (fun c => c.isAlphanum || c == ':' || c == '*')

/-- Compiled regexes all of whose items are literals or `[^:]*`. -/
def itemsNC : List RItem → Bool
  | [] => true
  | .lit _ :: rs => itemsNC rs
  | .starNC :: rs => itemsNC rs
  | .dot :: _ => false
  | .starAny :: _ => false

/-- Number of literal colons in a compiled regex. -/
def countColonItems : List RItem → Nat
  | [] => 0
  | .lit c :: rs => (if c = ':' then 1 else 0) + countColonItems rs
  | .dot :: rs => countColonItems rs
  | .starNC :: rs => countColonItems rs
  | .starAny :: rs => countColonItems rs

theorem tryTails_exists_split {f : List Char → Bool} {s : List Char}
    (h : tryTails f false s = true) :
    ∃ pre suf, s = pre ++ suf ∧ ':' ∉ pre ∧ f suf = true := by
  induction s with
  | nil => exact ⟨[], [], rfl, by simp, by simpa [tryTails] using h⟩
  | cons d ds ih =>
      rw [tryTails] at h
      rcases Bool.or_eq_true_iff.1 h with h1 | h2
      · exact ⟨[], d :: ds, rfl, by simp, h1⟩
      · rcases Bool.and_eq_true_iff.1 h2 with ⟨hne, ht⟩
        rcases ih ht with ⟨pre, suf, hsplit, hpre, hf⟩
        refine ⟨d :: pre, suf, by simp [hsplit], ?_, hf⟩
        intro hmem
        rcases List.mem_cons.1 hmem with hcd | hmem2
        · simp [hcd.symm] at hne
        · exact hpre hmem2

theorem rmatch_colon_count {rs : List RItem} {s : List Char}
    (hnc : itemsNC rs = true) (h : rmatch rs s = true) :
    s.count ':' = countColonItems rs := by
  induction rs generalizing s with
  | nil =>
      rw [rmatch] at h
      rw [List.isEmpty_iff.1 h]
      rfl
  | cons i rs ih =>
      cases i with
      | lit c =>
          cases s with
          | nil => rw [rmatch] at h; exact absurd h (by simp)
          | cons d ds =>
              rw [rmatch] at h
              rcases Bool.and_eq_true_iff.1 h with ⟨hc, hm⟩
              have hcd : c = d := by simpa using hc
              rw [itemsNC] at hnc
              rw [countColonItems, List.count_cons, ih hnc hm, hcd,
                Nat.add_comm]
              by_cases hdc : d = ':'
              · simp [hdc]
              · simp [hdc, fun hbeq => hdc (by simpa using hbeq)]
      | dot => exact absurd hnc (by simp [itemsNC])
      | starAny => exact absurd hnc (by simp [itemsNC])
      | starNC =>
          rw [rmatch] at h
          rcases tryTails_exists_split h with ⟨pre, suf, hsplit, hpre, hf⟩
          rw [itemsNC] at hnc
          rw [hsplit, List.count_append, countColonItems]
          have hpre0 : pre.count ':' = 0 := by
            simpa using List.count_eq_zero.2 hpre
          rw [hpre0, ih hnc hf, Nat.zero_add]

theorem hasDStar_cons_false {c : Char} {rest : List Char}
    (h : hasDStar (c :: rest) = false) : hasDStar rest = false := by
  cases rest with
  | nil => rfl
  | cons c2 r => rw [hasDStar] at h; exact (Bool.or_eq_false_iff.1 h).2

theorem compileChan_nc {pat : List Char}
    (hdot : '.' ∉ pat) (hds : hasDStar pat = false) :
    itemsNC (compileChan pat) = true ∧
      countColonItems (compileChan pat) = pat.count ':' := by
  induction pat with
  | nil => exact ⟨rfl, rfl⟩
  | cons c rest ih =>
      have hdotr : '.' ∉ rest := fun hr => hdot (List.mem_cons_of_mem c hr)
      have hdsr : hasDStar rest = false := hasDStar_cons_false hds
      rcases ih hdotr hdsr with ⟨h1, h2⟩
      by_cases hc : c = '*'
      · subst hc
        cases rest with
        | nil => exact ⟨rfl, rfl⟩
        | cons c2 rest2 =>
            by_cases hc2 : c2 = '*'
            · subst hc2
              rw [hasDStar] at hds
              simp at hds
            · have hcomp : compileChan ('*' :: c2 :: rest2) =
                  .starNC :: compileChan (c2 :: rest2) := by
                simp [compileChan, hc2]
              rw [hcomp]
              refine ⟨by simpa [itemsNC] using h1, ?_⟩
              rw [countColonItems, h2]
              simp [List.count_cons]
      · have hcd : c ≠ '.' := fun hcd => hdot (hcd ▸ List.mem_cons_self c rest)
        have hcomp : compileChan (c :: rest) = .lit c :: compileChan rest := by
          cases rest with
          | nil => simp [compileChan, hc, hcd]
          | cons c2 r2 => simp [compileChan, hc, hcd]
        rw [hcomp]
        refine ⟨by simpa [itemsNC] using h1, ?_⟩
        rw [countColonItems, h2, List.count_cons, Nat.add_comm]
        by_cases hcc : c = ':'
        · simp [hcc]
        · simp [hcc, fun hbeq => hcc (by simpa using hbeq)]

theorem patOK_no_dot {pat : List Char} (h : patOK pat = true) : '.' ∉ pat := by
  intro hmem
  have := List.all_eq_true.1 h _ hmem
  simp at this

/-! ## Claim theorems about the matchers and the channel grammar -/

/-- C1, counterexample. The claim asserts that BOTH matchers interpret `*` as
exactly one colon-delimited segment and `**` as any number of segments, and
reject channels whose segment count differs from the pattern's unless the
pattern uses `**`. This is false on the code in both respects: the router
core's `_matches_pattern` turns `*` into `.*`, so the four-segment channel
`T:a:b:c` DOES match the three-segment pattern `T:*:*`; and
`ChannelManager.match_pattern`'s replacement order corrupts `**` into the
regex `.[^:]*`, so `T:**` fails to match the multi-segment channel `T:a:b`. -/
theorem c1_counterexample :
    matchesRouter ("T:a:b:c".toList) ("T:*:*".toList) = true
    ∧ matchPattern ("T:a:b".toList) ("T:**".toList) = false := by
  exact ⟨by decide, by decide⟩

/-- C1 (amended): only `ChannelManager.match_pattern` enforces the segment
policy, and only for patterns without `**`: for every channel and every
pattern built from alphanumerics, `:` and `*` with no two adjacent stars, a
`match_pattern` success forces the channel to have the same number of
colon-delimited segments as the pattern (equal colon counts); in particular
`T:a:b:c` does not match `T:*:*` there. The router core's `_matches_pattern`
instead replaces every `*` by `.*`, so `T:a:b:c` does match `T:*:*` under it,
and `match_pattern` itself corrupts `**` (order of replacements) so that
`T:**` does not match `T:a:b`. -/
theorem c1_match_segment_policy :
    (∀ channel pattern : List Char, patOK pattern = true →
        hasDStar pattern = false → matchPattern channel pattern = true →
        channel.count ':' = pattern.count ':')
    ∧ matchPattern ("T:a:b:c".toList) ("T:*:*".toList) = false
    ∧ matchesRouter ("T:a:b:c".toList) ("T:*:*".toList) = true
    ∧ matchPattern ("T:a:b".toList) ("T:**".toList) = false := by
  refine ⟨?_, by decide, by decide, by decide⟩
  intro channel pattern hok hds hm
  unfold matchPattern at hm
  by_cases heq : pattern = channel
  · rw [heq]
  · rw [if_neg heq] at hm
    rcases compileChan_nc (patOK_no_dot hok) hds with ⟨h1, h2⟩
    rw [rmatch_colon_count h1 hm, h2]

/-- C1 witness: the general segment-count statement applied at the concrete
channel `T:a:b` and pattern `T:*:b`. -/
theorem c1_match_segment_policy_witness :
    patOK ("T:*:b".toList) = true ∧ hasDStar ("T:*:b".toList) = false ∧
    matchPattern ("T:a:b".toList) ("T:*:b".toList) = true ∧
    ("T:a:b".toList).count ':' = ("T:*:b".toList).count ':' :=
  ⟨by decide, by decide, by decide,
    c1_match_segment_policy.1 ("T:a:b".toList) ("T:*:b".toList)
      (by decide) (by decide) (by decide)⟩

/-- C9: for non-empty colon-free components `t`, `d`, `s`, parsing the channel
built from them returns exactly those components
(`parse_channel(create_channel(t, d, s))` yields `message_class = t`,
`direction = d`, `session_id = s`), with no error raised. -/
theorem c9_parse_inverse_of_build (t d s : List Char)
    (ht0 : t ≠ []) (hd0 : d ≠ []) (hs0 : s ≠ [])
    (ht : ':' ∉ t) (hd : ':' ∉ d) (hs : ':' ∉ s) :
    parseChannel (createChannel t d s) = .ok ⟨t, d, s⟩ := by
  unfold parseChannel
  rw [splitColon_createChannel t d s ht hd hs]

/-- C9 witness: build-then-parse at `("SampleMessage", "request", "s123")`. -/
theorem c9_parse_inverse_of_build_witness :
    parseChannel (createChannel ("SampleMessage".toList) ("request".toList)
        ("s123".toList)) =
      .ok ⟨"SampleMessage".toList, "request".toList, "s123".toList⟩ :=
  c9_parse_inverse_of_build _ _ _ (by decide) (by decide) (by decide)
    (by decide) (by decide) (by decide)

/-- C10: in both matchers a `*` position also matches the empty string, so a
malformed channel with an empty component still matches a wildcard pattern:
`match_pattern("T::x", "T:*:x")` and `_matches_pattern("T::x", "T:*:x")` both
return true (likewise with an empty final component), and neither matcher
raises on such inputs (both embedded matchers are total functions). -/
theorem c10_star_matches_empty_segment :
    matchPattern ("T::x".toList) ("T:*:x".toList) = true
    ∧ matchesRouter ("T::x".toList) ("T:*:x".toList) = true
    ∧ matchPattern ("T:a:".toList) ("T:a:*".toList) = true
    ∧ matchesRouter ("T:a:".toList) ("T:a:*".toList) = true := by
  exact ⟨by decide, by decide, by decide, by decide⟩

/-! ## Subscription table (src/agent_communication/routers/base.py lines
18-120, 316-326).

Agents are identified by opaque ids (`Nat`); Python's `Dict[str, Set[Agent]]`
and `Dict[Agent, Set[str]]` are modelled as `Option`-valued functions (a
`none` value is an absent dict key), with Python sets represented as
duplicate-free lists (`List.insert` is `set.add`, `List.erase` on a
duplicate-free list is `set.remove`/`set.discard`). -/

abbrev Agent := Nat

abbrev Pattern := List Char

/-- Python `set.add`: insert an element unless already present. -/
def setAdd {α : Type} [DecidableEq α] (x : α) (l : List α) : List α :=
  if x ∈ l then l else x :: l

/-- Python `set.remove` / `set.discard` on a duplicate-free list: drop the
element if present. -/
def setRemove {α : Type} [DecidableEq α] (x : α) : List α → List α
  | [] => []
  | y :: ys => if y = x then ys else y :: setRemove x ys

theorem mem_setAdd {α : Type} [DecidableEq α] {x b : α} {l : List α} :
    b ∈ setAdd x l ↔ b = x ∨ b ∈ l := by
  unfold setAdd
  by_cases h : x ∈ l
  · rw [if_pos h]
    constructor
    · exact Or.inr
    · rintro (rfl | hb)
      · exact h
      · exact hb
  · rw [if_neg h]
    exact List.mem_cons

theorem nodup_setAdd {α : Type} [DecidableEq α] {x : α} {l : List α}
    (h : l.Nodup) : (setAdd x l).Nodup := by
  unfold setAdd
  by_cases hm : x ∈ l
  · rwa [if_pos hm]
  · rw [if_neg hm]
    exact List.nodup_cons.2 ⟨hm, h⟩

theorem setRemove_subset {α : Type} [DecidableEq α] {x b : α} {l : List α}
    (h : b ∈ setRemove x l) : b ∈ l := by
  induction l with
  | nil => exact absurd h (List.not_mem_nil b)
  | cons y ys ih =>
      rw [setRemove] at h
      by_cases hy : y = x
      · rw [if_pos hy] at h
        exact List.mem_cons_of_mem y h
      · rw [if_neg hy] at h
        rcases List.mem_cons.1 h with rfl | h2
        · exact List.mem_cons_self b ys
        · exact List.mem_cons_of_mem y (ih h2)

theorem nodup_setRemove {α : Type} [DecidableEq α] {x : α} {l : List α}
    (h : l.Nodup) : (setRemove x l).Nodup := by
  induction l with
  | nil => exact h
  | cons y ys ih =>
      rcases List.nodup_cons.1 h with ⟨hy, hys⟩
      rw [setRemove]
      by_cases hyx : y = x
      · rwa [if_pos hyx]
      · rw [if_neg hyx]
        exact List.nodup_cons.2 ⟨fun hc => hy (setRemove_subset hc), ih hys⟩

theorem mem_setRemove_nodup {α : Type} [DecidableEq α] {x b : α}
    {l : List α} (h : l.Nodup) : b ∈ setRemove x l ↔ b ≠ x ∧ b ∈ l := by
  induction l with
  | nil => simp [setRemove]
  | cons y ys ih =>
      rcases List.nodup_cons.1 h with ⟨hy, hys⟩
      rw [setRemove]
      by_cases hyx : y = x
      · subst hyx
        rw [if_pos rfl]
        constructor
        · intro hb
          exact ⟨fun hbx => hy (hbx ▸ hb), List.mem_cons_of_mem y hb⟩
        · rintro ⟨hbx, hb⟩
          rcases List.mem_cons.1 hb with rfl | h2
          · exact absurd rfl hbx
          · exact h2
      · rw [if_neg hyx, List.mem_cons, ih hys, List.mem_cons]
        constructor
        · rintro (rfl | ⟨hbx, hb⟩)
          · exact ⟨hyx, Or.inl rfl⟩
          · exact ⟨hbx, Or.inr hb⟩
        · rintro ⟨hbx, rfl | hb⟩
          · exact Or.inl rfl
          · exact Or.inr ⟨hbx, hb⟩

theorem setRemove_eq_nil_singleton {α : Type} [DecidableEq α] {x : α}
    {l : List α} (hmem : x ∈ l) (h : setRemove x l = []) : l = [x] := by
  cases l with
  | nil => exact absurd hmem (List.not_mem_nil x)
  | cons y ys =>
      rw [setRemove] at h
      by_cases hyx : y = x
      · rw [if_pos hyx] at h
        rw [hyx, h]
      · rw [if_neg hyx] at h
        exact absurd h (by simp)

/-- The two dictionaries `_subscriptions` / `_agent_subscriptions` of
`AbstractRouter`. -/
structure RouterState where
  subs : Pattern → Option (List Agent)
  agentSubs : Agent → Option (List Pattern)

/-- Calls made to the backend primitives `_subscribe_raw` /
`_unsubscribe_raw`. -/
inductive RawCall where
  | sub (p : Pattern)
  | unsub (p : Pattern)
deriving DecidableEq, Repr

/-- `AbstractRouter.__init__`: both tables start empty. -/
def emptyRouter : RouterState := ⟨fun _ => none, fun _ => none⟩

/-- `AbstractRouter.subscribe(agent, pattern)` (base.py lines 64-84): if the
pattern is new, create its entry and call `_subscribe_raw`; add the agent to
the pattern's set and the pattern to the agent's inverse set. Returns the new
state together with the backend calls made. -/
def subscribeOp (s : RouterState) (a : Agent) (p : Pattern) :
    RouterState × List RawCall :=
  let calls := if (s.subs p).isNone then [RawCall.sub p] else []
  let cur := (s.subs p).getD []
  let curInv := (s.agentSubs a).getD []
  (⟨fun q => if q = p then some (setAdd a cur) else s.subs q,
    fun b => if b = a then some (setAdd p curInv) else s.agentSubs b⟩,
   calls)

/-- The inverse-index update inside `unsubscribe`'s loop:
`if agent in self._agent_subscriptions: self._agent_subscriptions[agent].discard(pat)`. -/
def invDiscard (s : RouterState) (a : Agent) (p : Pattern) :
    Agent → Option (List Pattern) :=
  match s.agentSubs a with
  | some ps => fun b => if b = a then some (setRemove p ps) else s.agentSubs b
  | none => s.agentSubs

/-- One iteration of `unsubscribe`'s `for pat in patterns` loop (base.py lines
101-110): remove the agent from the pattern's forward set when present,
deleting the entry and calling `_unsubscribe_raw` when it becomes empty; then
discard the pattern from the agent's inverse set. -/
def unsubPatStep (s : RouterState) (a : Agent) (p : Pattern) :
    RouterState × List RawCall :=
  match s.subs p with
  | some l =>
      if a ∈ l then
        if setRemove a l = [] then
          (⟨fun q => if q = p then none else s.subs q, invDiscard s a p⟩,
           [RawCall.unsub p])
        else
          (⟨fun q => if q = p then some (setRemove a l) else s.subs q,
            invDiscard s a p⟩, [])
      else (⟨s.subs, invDiscard s a p⟩, [])
  | none => (⟨s.subs, invDiscard s a p⟩, [])

/-- The post-loop cleanup of `unsubscribe` (base.py lines 112-116): delete the
agent's inverse entry when it has become empty. -/
def unsubCleanup (s : RouterState) (a : Agent) : RouterState :=
  match s.agentSubs a with
  | some [] => ⟨s.subs, fun b => if b = a then none else s.agentSubs b⟩
  | _ => s

/-- `AbstractRouter.unsubscribe(agent, pattern?)` (base.py lines 86-120): with
a pattern, process just that pattern; with `none`, process a snapshot of the
agent's inverse set; then clean up an emptied inverse entry. -/
def unsubscribeOp (s : RouterState) (a : Agent) (pat : Option Pattern) :
    RouterState × List RawCall :=
  let patterns := match pat with
    | some p => [p]
    | none => (s.agentSubs a).getD []
  let step := patterns.foldl
    (fun acc p =>
      let r := unsubPatStep acc.1 a p
      (r.1, acc.2 ++ r.2))
    (s, ([] : List RawCall))
  (unsubCleanup step.1 a, step.2)

/-- `AbstractRouter.auto_subscribe_agent(agent)` (base.py lines 316-326):
subscribe the agent to every pattern derived from its declared message types
(each message class contributes `get_channel_pattern()("*", "*")`; the derived
pattern list is taken as a parameter since `get_channel_pattern` is
class-specific). -/
def autoSubscribeOp (s : RouterState) (a : Agent) (pats : List Pattern) :
    RouterState × List RawCall :=
  pats.foldl
    (fun acc p =>
      let r := subscribeOp acc.1 a p
      (r.1, acc.2 ++ r.2))
    (s, ([] : List RawCall))

/-- An interleaving step: one call to subscribe, unsubscribe or
auto-subscribe. -/
inductive RouterOp where
  | sub (a : Agent) (p : Pattern)
  | unsub (a : Agent) (pat : Option Pattern)
  | autoSub (a : Agent) (pats : List Pattern)

/-- Apply one operation (discarding the backend-call log). -/
def applyOp (s : RouterState) : RouterOp → RouterState
  | .sub a p => (subscribeOp s a p).1
  | .unsub a pat => (unsubscribeOp s a pat).1
  | .autoSub a pats => (autoSubscribeOp s a pats).1

/-- Run a finite sequence of operations from a starting state. -/
def applyOps (ops : List RouterOp) (s : RouterState) : RouterState :=
  ops.foldl applyOp s

/-- Agent `a` is in the forward set `_subscriptions[p]`. -/
def memFwd (s : RouterState) (p : Pattern) (a : Agent) : Prop :=
  ∃ l, s.subs p = some l ∧ a ∈ l

/-- Pattern `p` is in the inverse set `_agent_subscriptions[a]`. -/
def memInv (s : RouterState) (a : Agent) (p : Pattern) : Prop :=
  ∃ ps, s.agentSubs a = some ps ∧ p ∈ ps

/-- The claimed forward/inverse consistency invariant. -/
def ConsistentIdx (s : RouterState) : Prop :=
  ∀ p a, memFwd s p a ↔ memInv s a p

/-- Both tables hold duplicate-free lists (they model Python sets). -/
def NodupState (s : RouterState) : Prop :=
  (∀ p l, s.subs p = some l → l.Nodup) ∧
  (∀ a ps, s.agentSubs a = some ps → ps.Nodup)

/-- Combined invariant carried through the induction. -/
def GoodState (s : RouterState) : Prop :=
  ConsistentIdx s ∧ NodupState s

/-- The forward map never holds an empty set. -/
def NoEmptyFwd (s : RouterState) : Prop :=
  ∀ p, s.subs p ≠ some []

/-! ### Preservation of the table invariants -/

theorem subs_subscribeOp (s : RouterState) (a : Agent) (p q : Pattern) :
    (subscribeOp s a p).1.subs q =
      if q = p then some (setAdd a ((s.subs p).getD [])) else s.subs q := rfl

theorem agentSubs_subscribeOp (s : RouterState) (a b : Agent) (p : Pattern) :
    (subscribeOp s a p).1.agentSubs b =
      if b = a then some (setAdd p ((s.agentSubs a).getD []))
      else s.agentSubs b := rfl

theorem calls_subscribeOp (s : RouterState) (a : Agent) (p : Pattern) :
    (subscribeOp s a p).2 =
      if (s.subs p).isNone then [RawCall.sub p] else [] := rfl

theorem memFwd_subscribeOp (s : RouterState) (a : Agent) (p q : Pattern)
    (b : Agent) :
    memFwd (subscribeOp s a p).1 q b ↔
      (q = p ∧ (b = a ∨ memFwd s p b)) ∨ (q ≠ p ∧ memFwd s q b) := by
  by_cases hq : q = p
  · subst hq
    cases hsq : s.subs q with
    | none => simp [memFwd, subs_subscribeOp, hsq, mem_setAdd]
    | some l => simp [memFwd, subs_subscribeOp, hsq, mem_setAdd]
  · simp [memFwd, subs_subscribeOp, hq]

theorem memInv_subscribeOp (s : RouterState) (a : Agent) (p q : Pattern)
    (b : Agent) :
    memInv (subscribeOp s a p).1 b q ↔
      (b = a ∧ (q = p ∨ memInv s a q)) ∨ (b ≠ a ∧ memInv s b q) := by
  by_cases hb : b = a
  · subst hb
    cases hsb : s.agentSubs b with
    | none => simp [memInv, agentSubs_subscribeOp, hsb, mem_setAdd]
    | some ps => simp [memInv, agentSubs_subscribeOp, hsb, mem_setAdd]
  · simp [memInv, agentSubs_subscribeOp, hb]

theorem good_subscribeOp {s : RouterState} {a : Agent} {p : Pattern}
    (hg : GoodState s) : GoodState (subscribeOp s a p).1 := by
  rcases hg with ⟨hc, hndF, hndI⟩
  refine ⟨?_, ?_, ?_⟩
  · intro q b
    rw [memFwd_subscribeOp, memInv_subscribeOp]
    by_cases hq : q = p <;> by_cases hb : b = a <;>
      simp [hq, hb, hc q b, hc p b, hc q a]
  · intro q l h
    rw [subs_subscribeOp] at h
    by_cases hq : q = p
    · rw [if_pos hq, Option.some.injEq] at h
      subst h
      cases hsq : s.subs p with
      | none => exact nodup_setAdd List.nodup_nil
      | some l0 => exact nodup_setAdd (hndF p l0 hsq)
    · rw [if_neg hq] at h
      exact hndF q l h
  · intro b ps h
    rw [agentSubs_subscribeOp] at h
    by_cases hb : b = a
    · rw [if_pos hb, Option.some.injEq] at h
      subst h
      cases hsb : s.agentSubs a with
      | none => exact nodup_setAdd List.nodup_nil
      | some ps0 => exact nodup_setAdd (hndI a ps0 hsb)
    · rw [if_neg hb] at h
      exact hndI b ps h

theorem invDiscard_iff {s : RouterState} {a : Agent} {p : Pattern}
    (hndI : ∀ b ps, s.agentSubs b = some ps → ps.Nodup) (b : Agent)
    (q : Pattern) :
    (∃ ps, invDiscard s a p b = some ps ∧ q ∈ ps) ↔
      (memInv s b q ∧ ¬(b = a ∧ q = p)) := by
  unfold memInv
  cases hsa : s.agentSubs a with
  | none =>
      simp only [invDiscard, hsa]
      constructor
      · rintro ⟨ps, hps, hq⟩
        refine ⟨⟨ps, hps, hq⟩, ?_⟩
        rintro ⟨rfl, rfl⟩
        rw [hsa] at hps
        exact Option.noConfusion hps
      · rintro ⟨⟨ps, hps, hq⟩, _⟩
        exact ⟨ps, hps, hq⟩
  | some ps0 =>
      simp only [invDiscard, hsa]
      by_cases hb : b = a
      · subst hb
        have hnd := hndI b ps0 hsa
        rw [if_pos rfl]
        constructor
        · rintro ⟨ps2, hps2, hq⟩
          rw [Option.some.injEq] at hps2
          subst hps2
          rw [mem_setRemove_nodup hnd] at hq
          exact ⟨⟨ps0, hsa, hq.2⟩, fun hcon => hq.1 hcon.2⟩
        · rintro ⟨⟨ps2, hps2, hq⟩, hnc⟩
          rw [hsa, Option.some.injEq] at hps2
          subst hps2
          refine ⟨setRemove p ps0, rfl, ?_⟩
          rw [mem_setRemove_nodup hnd]
          exact ⟨fun hqp => hnc ⟨rfl, hqp⟩, hq⟩
      · rw [if_neg hb]
        constructor
        · rintro ⟨ps2, hps2, hq⟩
          exact ⟨⟨ps2, hps2, hq⟩, fun hcon => hb hcon.1⟩
        · rintro ⟨⟨ps2, hps2, hq⟩, _⟩
          exact ⟨ps2, hps2, hq⟩

theorem nodup_invDiscard {s : RouterState} {a : Agent} {p : Pattern}
    (hndI : ∀ b ps, s.agentSubs b = some ps → ps.Nodup) (b : Agent)
    (ps : List Pattern) (h : invDiscard s a p b = some ps) : ps.Nodup := by
  cases hsa : s.agentSubs a with
  | none =>
      simp only [invDiscard, hsa] at h
      exact hndI b ps h
  | some ps0 =>
      simp only [invDiscard, hsa] at h
      by_cases hb : b = a
      · rw [if_pos hb, Option.some.injEq] at h
        subst h
        exact nodup_setRemove (hndI a ps0 hsa)
      · rw [if_neg hb] at h
        exact hndI b ps h

theorem unsubPatStep_none {s : RouterState} {a : Agent} {p : Pattern}
    (h : s.subs p = none) :
    unsubPatStep s a p = (⟨s.subs, invDiscard s a p⟩, []) := by
  simp [unsubPatStep, h]

theorem unsubPatStep_not_mem {s : RouterState} {a : Agent} {p : Pattern}
    {l : List Agent} (h : s.subs p = some l) (ha : a ∉ l) :
    unsubPatStep s a p = (⟨s.subs, invDiscard s a p⟩, []) := by
  simp [unsubPatStep, h, ha]

theorem unsubPatStep_last {s : RouterState} {a : Agent} {p : Pattern}
    {l : List Agent} (h : s.subs p = some l) (ha : a ∈ l)
    (he : setRemove a l = []) :
    unsubPatStep s a p =
      (⟨fun q => if q = p then none else s.subs q, invDiscard s a p⟩,
       [RawCall.unsub p]) := by
  simp [unsubPatStep, h, ha, he]

theorem unsubPatStep_rest {s : RouterState} {a : Agent} {p : Pattern}
    {l : List Agent} (h : s.subs p = some l) (ha : a ∈ l)
    (he : setRemove a l ≠ []) :
    unsubPatStep s a p =
      (⟨fun q => if q = p then some (setRemove a l) else s.subs q,
        invDiscard s a p⟩, []) := by
  simp [unsubPatStep, h, ha, he]

/-- Consistency transfers to any state whose forward map relates to the old
one like the inverse-discard does to the old inverse map. -/
theorem consistent_pair {s : RouterState} {a : Agent} {p : Pattern}
    (hc : ConsistentIdx s)
    (hndI : ∀ b ps, s.agentSubs b = some ps → ps.Nodup)
    (fwd2 : Pattern → Option (List Agent))
    (hf : ∀ q b, (∃ l, fwd2 q = some l ∧ b ∈ l) ↔
        (memFwd s q b ∧ ¬(b = a ∧ q = p))) :
    ConsistentIdx ⟨fwd2, invDiscard s a p⟩ := by
  intro q b
  show (∃ l, fwd2 q = some l ∧ b ∈ l) ↔
    (∃ ps, invDiscard s a p b = some ps ∧ q ∈ ps)
  rw [hf q b, invDiscard_iff hndI b q]
  constructor
  · rintro ⟨hfwd, hnc⟩
    exact ⟨(hc q b).1 hfwd, hnc⟩
  · rintro ⟨hi, hnc⟩
    exact ⟨(hc q b).2 hi, hnc⟩

theorem good_unsubPatStep {s : RouterState} {a : Agent} {p : Pattern}
    (hg : GoodState s) : GoodState (unsubPatStep s a p).1 := by
  rcases hg with ⟨hc, hndF, hndI⟩
  cases hsp : s.subs p with
  | none =>
      rw [unsubPatStep_none hsp]
      refine ⟨consistent_pair hc hndI _ ?_, ?_, nodup_invDiscard hndI⟩
      · intro q b
        constructor
        · intro hfwd
          refine ⟨hfwd, ?_⟩
          rintro ⟨rfl, rfl⟩
          rcases hfwd with ⟨l, hl, _⟩
          rw [hsp] at hl
          exact Option.noConfusion hl
        · exact fun h => h.1
      · exact hndF
  | some l =>
      by_cases ha : a ∈ l
      · by_cases he : setRemove a l = []
        · rw [unsubPatStep_last hsp ha he]
          have hla : l = [a] := setRemove_eq_nil_singleton ha he
          refine ⟨consistent_pair hc hndI _ ?_, ?_, nodup_invDiscard hndI⟩
          · intro q b
            by_cases hq : q = p
            · subst hq
              rw [if_pos rfl]
              constructor
              · rintro ⟨l2, hl2, _⟩
                exact Option.noConfusion hl2
              · rintro ⟨⟨l2, hl2, hb⟩, hnc⟩
                rw [hsp, Option.some.injEq] at hl2
                subst hl2
                rw [hla, List.mem_singleton] at hb
                exact absurd ⟨hb, rfl⟩ hnc
            · rw [if_neg hq]
              constructor
              · intro hfwd
                exact ⟨hfwd, fun hcon => hq hcon.2⟩
              · exact fun h => h.1
          · intro q l2 h2
            dsimp only at h2
            by_cases hq : q = p
            · rw [if_pos hq] at h2
              exact Option.noConfusion h2
            · rw [if_neg hq] at h2
              exact hndF q l2 h2
        · rw [unsubPatStep_rest hsp ha he]
          have hndl := hndF p l hsp
          refine ⟨consistent_pair hc hndI _ ?_, ?_, nodup_invDiscard hndI⟩
          · intro q b
            by_cases hq : q = p
            · subst hq
              rw [if_pos rfl]
              constructor
              · rintro ⟨l2, hl2, hb⟩
                rw [Option.some.injEq] at hl2
                subst hl2
                rw [mem_setRemove_nodup hndl] at hb
                exact ⟨⟨l, hsp, hb.2⟩, fun hcon => hb.1 hcon.1⟩
              · rintro ⟨⟨l2, hl2, hb⟩, hnc⟩
                rw [hsp, Option.some.injEq] at hl2
                subst hl2
                refine ⟨setRemove a l, rfl, ?_⟩
                rw [mem_setRemove_nodup hndl]
                exact ⟨fun hba => hnc ⟨hba, rfl⟩, hb⟩
            · rw [if_neg hq]
              constructor
              · intro hfwd
                exact ⟨hfwd, fun hcon => hq hcon.2⟩
              · exact fun h => h.1
          · intro q l2 h2
            dsimp only at h2
            by_cases hq : q = p
            · rw [if_pos hq, Option.some.injEq] at h2
              subst h2
              exact nodup_setRemove hndl
            · rw [if_neg hq] at h2
              exact hndF q l2 h2
      · rw [unsubPatStep_not_mem hsp ha]
        refine ⟨consistent_pair hc hndI _ ?_, ?_, nodup_invDiscard hndI⟩
        · intro q b
          constructor
          · intro hfwd
            refine ⟨hfwd, ?_⟩
            rintro ⟨rfl, rfl⟩
            rcases hfwd with ⟨l2, hl2, hb⟩
            rw [hsp, Option.some.injEq] at hl2
            subst hl2
            exact ha hb
          · exact fun h => h.1
        · exact hndF

theorem unsubCleanup_none {s : RouterState} {a : Agent}
    (h : s.agentSubs a = none) : unsubCleanup s a = s := by
  simp [unsubCleanup, h]

theorem unsubCleanup_cons {s : RouterState} {a : Agent} {q0 : Pattern}
    {qs : List Pattern} (h : s.agentSubs a = some (q0 :: qs)) :
    unsubCleanup s a = s := by
  simp [unsubCleanup, h]

theorem unsubCleanup_nil {s : RouterState} {a : Agent}
    (h : s.agentSubs a = some []) :
    unsubCleanup s a =
      ⟨s.subs, fun b => if b = a then none else s.agentSubs b⟩ := by
  simp [unsubCleanup, h]

theorem good_unsubCleanup {s : RouterState} {a : Agent}
    (hg : GoodState s) : GoodState (unsubCleanup s a) := by
  rcases hg with ⟨hc, hndF, hndI⟩
  cases hsa : s.agentSubs a with
  | none => rw [unsubCleanup_none hsa]; exact ⟨hc, hndF, hndI⟩
  | some ps =>
      cases ps with
      | cons q0 qs => rw [unsubCleanup_cons hsa]; exact ⟨hc, hndF, hndI⟩
      | nil =>
          rw [unsubCleanup_nil hsa]
          refine ⟨?_, hndF, ?_⟩
          · intro q b
            show memFwd s q b ↔
              (∃ ps2, (if b = a then none else s.agentSubs b) = some ps2 ∧
                q ∈ ps2)
            rw [hc q b]
            by_cases hb : b = a
            · subst hb
              constructor
              · rintro ⟨ps2, hps2, hq⟩
                rw [hsa, Option.some.injEq] at hps2
                subst hps2
                exact absurd hq (List.not_mem_nil q)
              · rintro ⟨ps2, hps2, hq⟩
                rw [if_pos rfl] at hps2
                exact Option.noConfusion hps2
            · constructor
              · rintro ⟨ps2, hps2, hq⟩
                exact ⟨ps2, by rw [if_neg hb]; exact hps2, hq⟩
              · rintro ⟨ps2, hps2, hq⟩
                rw [if_neg hb] at hps2
                exact ⟨ps2, hps2, hq⟩
          · intro b ps2 h2
            dsimp only at h2
            by_cases hb : b = a
            · rw [if_pos hb] at h2
              exact Option.noConfusion h2
            · rw [if_neg hb] at h2
              exact hndI b ps2 h2

theorem unsub_fold_state (a : Agent) (pats : List Pattern) (s : RouterState)
    (cs : List RawCall) :
    (pats.foldl
        (fun acc p =>
          let r := unsubPatStep acc.1 a p
          (r.1, acc.2 ++ r.2)) (s, cs)).1 =
      pats.foldl (fun st p => (unsubPatStep st a p).1) s := by
  induction pats generalizing s cs with
  | nil => rfl
  | cons p ps ih =>
      rw [List.foldl_cons, List.foldl_cons]
      exact ih _ _

theorem autoSub_fold_state (a : Agent) (pats : List Pattern) (s : RouterState)
    (cs : List RawCall) :
    (pats.foldl
        (fun acc p =>
          let r := subscribeOp acc.1 a p
          (r.1, acc.2 ++ r.2)) (s, cs)).1 =
      pats.foldl (fun st p => (subscribeOp st a p).1) s := by
  induction pats generalizing s cs with
  | nil => rfl
  | cons p ps ih =>
      rw [List.foldl_cons, List.foldl_cons]
      exact ih _ _

/-- The pattern list that `unsubscribe` iterates over. -/
def unsubPatterns (s : RouterState) (a : Agent) : Option Pattern → List Pattern
  | some p => [p]
  | none => (s.agentSubs a).getD []

theorem unsubscribeOp_fst (s : RouterState) (a : Agent) (pat : Option Pattern) :
    (unsubscribeOp s a pat).1 =
      unsubCleanup
        ((unsubPatterns s a pat).foldl (fun st p => (unsubPatStep st a p).1) s)
        a := by
  unfold unsubscribeOp unsubPatterns
  cases pat with
  | none => exact congrArg (fun st => unsubCleanup st a) (unsub_fold_state _ _ _ _)
  | some p => exact congrArg (fun st => unsubCleanup st a) (unsub_fold_state _ _ _ _)

theorem autoSubscribeOp_fst (s : RouterState) (a : Agent)
    (pats : List Pattern) :
    (autoSubscribeOp s a pats).1 =
      pats.foldl (fun st p => (subscribeOp st a p).1) s := by
  unfold autoSubscribeOp
  exact autoSub_fold_state _ _ _ _

theorem good_fold_unsub (a : Agent) (pats : List Pattern) :
    ∀ s, GoodState s →
      GoodState (pats.foldl (fun st p => (unsubPatStep st a p).1) s) := by
  induction pats with
  | nil => exact fun s h => h
  | cons p ps ih =>
      intro s h
      rw [List.foldl_cons]
      exact ih _ (good_unsubPatStep h)

theorem good_fold_sub (a : Agent) (pats : List Pattern) :
    ∀ s, GoodState s →
      GoodState (pats.foldl (fun st p => (subscribeOp st a p).1) s) := by
  induction pats with
  | nil => exact fun s h => h
  | cons p ps ih =>
      intro s h
      rw [List.foldl_cons]
      exact ih _ (good_subscribeOp h)

theorem good_applyOp {s : RouterState} (hg : GoodState s) (op : RouterOp) :
    GoodState (applyOp s op) := by
  cases op with
  | sub a p => exact good_subscribeOp hg
  | unsub a pat =>
      show GoodState (unsubscribeOp s a pat).1
      rw [unsubscribeOp_fst]
      exact good_unsubCleanup (good_fold_unsub _ _ _ hg)
  | autoSub a pats =>
      show GoodState (autoSubscribeOp s a pats).1
      rw [autoSubscribeOp_fst]
      exact good_fold_sub _ _ _ hg

theorem good_emptyRouter : GoodState emptyRouter := by
  refine ⟨?_, ?_, ?_⟩
  · intro p a
    constructor
    · rintro ⟨l, hl, _⟩
      exact Option.noConfusion hl
    · rintro ⟨ps, hps, _⟩
      exact Option.noConfusion hps
  · intro p l hl
    exact Option.noConfusion hl
  · intro a ps hps
    exact Option.noConfusion hps

theorem good_applyOps (ops : List RouterOp) :
    ∀ s, GoodState s → GoodState (applyOps ops s) := by
  induction ops with
  | nil => exact fun s h => h
  | cons op rest ih =>
      intro s h
      rw [applyOps, List.foldl_cons]
      exact ih _ (good_applyOp h op)

/-! ### Never-empty forward sets and backend-call discipline -/

theorem setAdd_ne_nil {α : Type} [DecidableEq α] {x : α} {l : List α} :
    setAdd x l ≠ [] := by
  unfold setAdd
  by_cases h : x ∈ l
  · rw [if_pos h]
    intro hl
    rw [hl] at h
    exact List.not_mem_nil x h
  · rw [if_neg h]
    exact List.cons_ne_nil x l

theorem noEmpty_subscribeOp {s : RouterState} {a : Agent} {p : Pattern}
    (h : NoEmptyFwd s) : NoEmptyFwd (subscribeOp s a p).1 := by
  intro q
  rw [subs_subscribeOp]
  by_cases hq : q = p
  · rw [if_pos hq]
    intro hcon
    rw [Option.some.injEq] at hcon
    exact setAdd_ne_nil hcon
  · rw [if_neg hq]
    exact h q

theorem noEmpty_unsubPatStep {s : RouterState} {a : Agent} {p : Pattern}
    (h : NoEmptyFwd s) : NoEmptyFwd (unsubPatStep s a p).1 := by
  cases hsp : s.subs p with
  | none => rw [unsubPatStep_none hsp]; exact h
  | some l =>
      by_cases ha : a ∈ l
      · by_cases he : setRemove a l = []
        · rw [unsubPatStep_last hsp ha he]
          intro q
          show (if q = p then none else s.subs q) ≠ some []
          by_cases hq : q = p
          · rw [if_pos hq]
            exact fun hcon => Option.noConfusion hcon
          · rw [if_neg hq]
            exact h q
        · rw [unsubPatStep_rest hsp ha he]
          intro q
          show (if q = p then some (setRemove a l) else s.subs q) ≠ some []
          by_cases hq : q = p
          · rw [if_pos hq]
            intro hcon
            rw [Option.some.injEq] at hcon
            exact he hcon
          · rw [if_neg hq]
            exact h q
      · rw [unsubPatStep_not_mem hsp ha]
        exact h

theorem subs_unsubCleanup (s : RouterState) (a : Agent) :
    (unsubCleanup s a).subs = s.subs := by
  cases hsa : s.agentSubs a with
  | none => rw [unsubCleanup_none hsa]
  | some ps =>
      cases ps with
      | nil => rw [unsubCleanup_nil hsa]
      | cons q0 qs => rw [unsubCleanup_cons hsa]

theorem noEmpty_fold_unsub (a : Agent) (pats : List Pattern) :
    ∀ s, NoEmptyFwd s →
      NoEmptyFwd (pats.foldl (fun st p => (unsubPatStep st a p).1) s) := by
  induction pats with
  | nil => exact fun s h => h
  | cons p ps ih =>
      intro s h
      rw [List.foldl_cons]
      exact ih _ (noEmpty_unsubPatStep h)

theorem noEmpty_fold_sub (a : Agent) (pats : List Pattern) :
    ∀ s, NoEmptyFwd s →
      NoEmptyFwd (pats.foldl (fun st p => (subscribeOp st a p).1) s) := by
  induction pats with
  | nil => exact fun s h => h
  | cons p ps ih =>
      intro s h
      rw [List.foldl_cons]
      exact ih _ (noEmpty_subscribeOp h)

theorem noEmpty_applyOp {s : RouterState} (h : NoEmptyFwd s) (op : RouterOp) :
    NoEmptyFwd (applyOp s op) := by
  cases op with
  | sub a p => exact noEmpty_subscribeOp h
  | unsub a pat =>
      show NoEmptyFwd (unsubscribeOp s a pat).1
      rw [unsubscribeOp_fst]
      intro q
      rw [subs_unsubCleanup]
      exact noEmpty_fold_unsub _ _ _ h q
  | autoSub a pats =>
      show NoEmptyFwd (autoSubscribeOp s a pats).1
      rw [autoSubscribeOp_fst]
      exact noEmpty_fold_sub _ _ _ h

theorem noEmpty_applyOps (ops : List RouterOp) :
    ∀ s, NoEmptyFwd s → NoEmptyFwd (applyOps ops s) := by
  induction ops with
  | nil => exact fun s h => h
  | cons op rest ih =>
      intro s h
      rw [applyOps, List.foldl_cons]
      exact ih _ (noEmpty_applyOp h op)

theorem subs_ne_none_subscribeOp {s : RouterState} {a : Agent} {p q : Pattern}
    (h : s.subs q ≠ none) : (subscribeOp s a p).1.subs q ≠ none := by
  rw [subs_subscribeOp]
  by_cases hq : q = p
  · rw [if_pos hq]
    exact fun hcon => Option.noConfusion hcon
  · rw [if_neg hq]
    exact h

theorem subs_self_ne_none_subscribeOp {s : RouterState} {a : Agent}
    {p : Pattern} : (subscribeOp s a p).1.subs p ≠ none := by
  rw [subs_subscribeOp, if_pos rfl]
  exact fun hcon => Option.noConfusion hcon

theorem fold_sub_preserves_ne_none (a : Agent) (pats : List Pattern) :
    ∀ s q, s.subs q ≠ none →
      (pats.foldl (fun st p => (subscribeOp st a p).1) s).subs q ≠ none := by
  induction pats with
  | nil => exact fun s q h => h
  | cons p ps ih =>
      intro s q h
      rw [List.foldl_cons]
      exact ih _ _ (subs_ne_none_subscribeOp h)

theorem fold_sub_covers (a : Agent) (pats : List Pattern) :
    ∀ s p, p ∈ pats →
      (pats.foldl (fun st q => (subscribeOp st a q).1) s).subs p ≠ none := by
  induction pats with
  | nil =>
      intro s p hp
      exact absurd hp (List.not_mem_nil p)
  | cons q qs ih =>
      intro s p hp
      rw [List.foldl_cons]
      rcases List.mem_cons.1 hp with rfl | hp2
      · exact fold_sub_preserves_ne_none a qs _ _ subs_self_ne_none_subscribeOp
      · exact ih _ _ hp2

theorem isNone_false_of_ne_none {l : Option (List Agent)} (h : l ≠ none) :
    l.isNone = false := by
  cases l with
  | none => exact absurd rfl h
  | some x => rfl

theorem fold_sub_calls_nil (a : Agent) (pats : List Pattern) :
    ∀ s cs, (∀ p ∈ pats, s.subs p ≠ none) →
      (pats.foldl
          (fun acc p =>
            let r := subscribeOp acc.1 a p
            (r.1, acc.2 ++ r.2)) (s, cs)).2 = cs := by
  induction pats with
  | nil => exact fun s cs _ => rfl
  | cons q qs ih =>
      intro s cs h
      have hq : (subscribeOp s a q).2 = [] := by
        rw [calls_subscribeOp,
          isNone_false_of_ne_none (h q (List.mem_cons_self q qs))]
        rfl
      show (qs.foldl
          (fun acc p =>
            let r := subscribeOp acc.1 a p
            (r.1, acc.2 ++ r.2))
          ((subscribeOp s a q).1, cs ++ (subscribeOp s a q).2)).2 = cs
      rw [hq, List.append_nil]
      exact ih _ _
        (fun p hp => subs_ne_none_subscribeOp (h p (List.mem_cons_of_mem q hp)))

/-! ### The C4 and C5 claim theorems -/

/-- C4: after every finite interleaving of subscribe and unsubscribe (and
auto-subscribe) operations from the empty table, the forward map and the
inverse index are mutually consistent: agent `a` lies in `_subscriptions[p]`
iff `p` lies in `_agent_subscriptions[a]`. -/
theorem c4_forward_inverse_consistency (ops : List RouterOp) (p : Pattern)
    (a : Agent) :
    memFwd (applyOps ops emptyRouter) p a ↔
      memInv (applyOps ops emptyRouter) a p :=
  (good_applyOps ops emptyRouter good_emptyRouter).1 p a

/-- C5: (i) across every finite operation sequence the forward map never maps
a pattern to an empty agent set; (ii) a subscribe call invokes
`_subscribe_raw(p)` exactly once iff the pattern is new, else not at all;
(iii) the unsubscribe that removes the last agent of `p` deletes the key and
invokes `_unsubscribe_raw(p)` exactly once; (iv) re-invoking auto-subscribe
for the same agent and message types triggers no backend subscribe calls. -/
theorem c5_cleanup_and_raw_call_discipline :
    (∀ ops : List RouterOp, NoEmptyFwd (applyOps ops emptyRouter))
    ∧ (∀ (s : RouterState) (a : Agent) (p : Pattern),
        (subscribeOp s a p).2 =
          if s.subs p = none then [RawCall.sub p] else [])
    ∧ (∀ (s : RouterState) (a : Agent) (p : Pattern),
        s.subs p = some [a] →
          (unsubscribeOp s a (some p)).1.subs p = none ∧
          (unsubscribeOp s a (some p)).2 = [RawCall.unsub p])
    ∧ (∀ (s : RouterState) (a : Agent) (pats : List Pattern),
        (autoSubscribeOp (autoSubscribeOp s a pats).1 a pats).2 = []) := by
  refine ⟨?_, ?_, ?_, ?_⟩
  · intro ops
    refine noEmpty_applyOps ops emptyRouter ?_
    intro p
    exact fun hcon => Option.noConfusion hcon
  · intro s a p
    rw [calls_subscribeOp]
    by_cases h : s.subs p = none
    · rw [if_pos h]
      rw [h]
      rfl
    · rw [if_neg h, isNone_false_of_ne_none h]
      rfl
  · intro s a p h
    have ha : a ∈ [a] := List.mem_singleton_self a
    have he : setRemove a [a] = [] := by
      rw [setRemove, if_pos rfl]
    have hstep := unsubPatStep_last h ha he
    constructor
    · rw [unsubscribeOp_fst]
      rw [subs_unsubCleanup]
      show ((unsubPatterns s a (some p)).foldl
        (fun st q => (unsubPatStep st a q).1) s).subs p = none
      rw [unsubPatterns, List.foldl_cons, List.foldl_nil, hstep]
      show (if p = p then none else s.subs p) = none
      rw [if_pos rfl]
    · show ([p].foldl
        (fun acc q =>
          let r := unsubPatStep acc.1 a q
          (r.1, acc.2 ++ r.2)) (s, ([] : List RawCall))).2 = [RawCall.unsub p]
      rw [List.foldl_cons, List.foldl_nil, hstep]
      rfl
  · intro s a pats
    rw [autoSubscribeOp_fst]
    show (pats.foldl
        (fun acc p =>
          let r := subscribeOp acc.1 a p
          (r.1, acc.2 ++ r.2))
        (pats.foldl (fun st p => (subscribeOp st a p).1) s,
         ([] : List RawCall))).2 = []
    exact fold_sub_calls_nil a pats _ [] (fun p hp => fold_sub_covers a pats s p hp)

/-- C5 witness: subscribing agent `0` to `T:*:*` in the empty router and then
unsubscribing it again deletes the forward key and emits exactly one
`_unsubscribe_raw` call. -/
theorem c5_cleanup_and_raw_call_discipline_witness :
    (subscribeOp emptyRouter 0 ("T:*:*".toList)).1.subs ("T:*:*".toList) =
      some [0]
    ∧ (unsubscribeOp (subscribeOp emptyRouter 0 ("T:*:*".toList)).1 0
        (some ("T:*:*".toList))).1.subs ("T:*:*".toList) = none
    ∧ (unsubscribeOp (subscribeOp emptyRouter 0 ("T:*:*".toList)).1 0
        (some ("T:*:*".toList))).2 = [RawCall.unsub ("T:*:*".toList)] := by
  refine ⟨by decide, ?_, ?_⟩
  · exact (c5_cleanup_and_raw_call_discipline.2.2.1 _ 0 _ (by decide)).1
  · exact (c5_cleanup_and_raw_call_discipline.2.2.1 _ 0 _ (by decide)).2

/-! ## Message delivery fan-out (routers/base.py lines 148-172)

`deliver_message` iterates the `_subscriptions` dictionary; the iteration
snapshot is modelled as an association list of (pattern, agent set) entries.
`agents_to_notify` is a Python set, modelled as a duplicate-free list built
with `setAdd`; `validate_incoming_message` is an opaque boolean predicate of
the agent (the decoded message is fixed for one delivery); the agents whose
`handle_message` is dispatched are the eligible members of the notify set,
each spawned exactly once by `asyncio.gather`. -/

/-- Python `set.update(agents)`. -/
def setUnion (acc l : List Agent) : List Agent :=
  l.foldl (fun acc2 x => setAdd x acc2) acc

/-- The notify set of `deliver_message`: union of the agent sets of all
patterns matching the channel (using `_matches_pattern`). -/
def agentsToNotify (table : List (Pattern × List Agent)) (channel : Pattern) :
    List Agent :=
  table.foldl
    (fun acc e => if matchesRouter channel e.1 then setUnion acc e.2 else acc)
    []

/-- The agents to which `deliver_message` dispatches `handle_message`: the
members of the notify set accepted by `validate_incoming_message`. -/
def deliveredAgents (table : List (Pattern × List Agent)) (channel : Pattern)
    (validate : Agent → Bool) : List Agent :=
  (agentsToNotify table channel).filter validate

theorem mem_setUnion {acc l : List Agent} {b : Agent} :
    b ∈ setUnion acc l ↔ b ∈ acc ∨ b ∈ l := by
  induction l generalizing acc with
  | nil => simp [setUnion]
  | cons x xs ih =>
      show b ∈ setUnion (setAdd x acc) xs ↔ b ∈ acc ∨ b ∈ x :: xs
      rw [ih, mem_setAdd, List.mem_cons]
      tauto

theorem nodup_setUnion {acc l : List Agent} (h : acc.Nodup) :
    (setUnion acc l).Nodup := by
  induction l generalizing acc with
  | nil => exact h
  | cons x xs ih =>
      show (setUnion (setAdd x acc) xs).Nodup
      exact ih (nodup_setAdd h)

theorem mem_notify_fold {channel : Pattern}
    (table : List (Pattern × List Agent)) (b : Agent) :
    ∀ acc : List Agent,
      b ∈ table.foldl
          (fun acc e =>
            if matchesRouter channel e.1 then setUnion acc e.2 else acc)
          acc ↔
        b ∈ acc ∨ ∃ e ∈ table, matchesRouter channel e.1 = true ∧ b ∈ e.2 := by
  induction table with
  | nil => simp
  | cons e es ih =>
      intro acc
      rw [List.foldl_cons]
      by_cases hm : matchesRouter channel e.1 = true
      · rw [if_pos hm, ih (setUnion acc e.2), mem_setUnion]
        simp only [List.mem_cons]
        constructor
        · rintro ((hb | hb) | ⟨e2, he2, hm2, hb⟩)
          · exact Or.inl hb
          · exact Or.inr ⟨e, Or.inl rfl, hm, hb⟩
          · exact Or.inr ⟨e2, Or.inr he2, hm2, hb⟩
        · rintro (hb | ⟨e2, he2 | he2, hm2, hb⟩)
          · exact Or.inl (Or.inl hb)
          · subst he2
            exact Or.inl (Or.inr hb)
          · exact Or.inr ⟨e2, he2, hm2, hb⟩
      · rw [if_neg hm, ih acc]
        simp only [List.mem_cons]
        constructor
        · rintro (hb | ⟨e2, he2, hm2, hb⟩)
          · exact Or.inl hb
          · exact Or.inr ⟨e2, Or.inr he2, hm2, hb⟩
        · rintro (hb | ⟨e2, he2 | he2, hm2, hb⟩)
          · exact Or.inl hb
          · subst he2
            exact absurd hm2 hm
          · exact Or.inr ⟨e2, he2, hm2, hb⟩

theorem mem_agentsToNotify {table : List (Pattern × List Agent)}
    {channel : Pattern} {b : Agent} :
    b ∈ agentsToNotify table channel ↔
      ∃ e ∈ table, matchesRouter channel e.1 = true ∧ b ∈ e.2 := by
  rw [agentsToNotify, mem_notify_fold]
  simp

theorem nodup_agentsToNotify {table : List (Pattern × List Agent)}
    {channel : Pattern} : (agentsToNotify table channel).Nodup := by
  rw [agentsToNotify]
  have hgen : ∀ acc : List Agent, acc.Nodup →
      (table.foldl
        (fun acc e =>
          if matchesRouter channel e.1 then setUnion acc e.2 else acc)
        acc).Nodup := by
    induction table with
    | nil => exact fun acc h => h
    | cons e es ih =>
        intro acc h
        rw [List.foldl_cons]
        by_cases hm : matchesRouter channel e.1 = true
        · rw [if_pos hm]
          exact ih _ (nodup_setUnion h)
        · rw [if_neg hm]
          exact ih _ h
  exact hgen [] List.nodup_nil

/-- C2: in one `deliver_message` invocation, each agent subscribed under at
least one pattern matching the channel and accepted by
`validate_incoming_message` has `handle_message` dispatched exactly once —
even when the agent appears under several matching patterns — and an agent
failing either condition is not dispatched at all. -/
theorem c2_deliver_exactly_once (table : List (Pattern × List Agent))
    (channel : Pattern) (validate : Agent → Bool) (a : Agent) :
    (deliveredAgents table channel validate).count a =
      if (∃ e ∈ table, matchesRouter channel e.1 = true ∧ a ∈ e.2) ∧
          validate a = true then 1 else 0 := by
  have hnd : (deliveredAgents table channel validate).Nodup :=
    List.Nodup.filter _ nodup_agentsToNotify
  have hmem : a ∈ deliveredAgents table channel validate ↔
      (∃ e ∈ table, matchesRouter channel e.1 = true ∧ a ∈ e.2) ∧
        validate a = true := by
    rw [deliveredAgents, List.mem_filter, mem_agentsToNotify]
  by_cases h : (∃ e ∈ table, matchesRouter channel e.1 = true ∧ a ∈ e.2) ∧
      validate a = true
  · rw [if_pos h]
    exact List.count_eq_one_of_mem hnd (hmem.2 h)
  · rw [if_neg h]
    exact List.count_eq_zero_of_not_mem (fun hcon => h (hmem.1 hcon))

/-! ## Adapter-level delivery de-duplication

`RedisRouter._message_listener` (redis_router.py lines 181-269) and
`RabbitMQRouter._message_callback` (rabbitmq_router.py lines 223-260) both
keep `delivered_messages : Dict[(channel, bytes), float]`, modelled as an
association list of (key, admission time) pairs with times in `ℚ` (the
monotonic clock). The RabbitMQ callback evicts entries older than 5 s on
every call, then skips the message if its key is still present, else records
it. The Redis listener checks bare key membership on every received message
and performs the 5 s eviction only in its idle branch (when `get_message`
returned `None`), not on the admit path. -/

/-- A dedup key: (channel, payload bytes). -/
abbrev DedupKey := List Char × List Nat

/-- The `delivered_messages` dictionary as an association list. -/
abbrev DedupCache := List (DedupKey × ℚ)

/-- Python `message_key in delivered_messages`. -/
def containsKeyD (k : DedupKey) (c : DedupCache) : Bool :=
  c.any (fun e => decide (e.1 = k))

/-- The admit path of `RabbitMQRouter._message_callback` (lines 236-252):
evict entries older than the 5 s window, then admit iff the key is absent,
recording it with the current time.  Returns (admitted?, new cache). -/
def rabbitAdmit (cache : DedupCache) (k : DedupKey) (t : ℚ) :
    Bool × DedupCache :=
  if containsKeyD k (cache.filter (fun e => decide (t - e.2 < 5))) then
    (false, cache.filter (fun e => decide (t - e.2 < 5)))
  else
    (true, cache.filter (fun e => decide (t - e.2 < 5)) ++ [(k, t)])

/-- The admit path of `RedisRouter._message_listener` (lines 237-247): admit
iff the key is absent — with NO eviction on this path. -/
def redisAdmit (cache : DedupCache) (k : DedupKey) (t : ℚ) :
    Bool × DedupCache :=
  if containsKeyD k cache then (false, cache) else (true, cache ++ [(k, t)])

/-- The idle-branch eviction of the Redis listener (lines 201-207), run only
when no message was pending. -/
def redisIdleEvict (cache : DedupCache) (t : ℚ) : DedupCache :=
  cache.filter (fun e => decide (t - e.2 < 5))

theorem containsKeyD_iff {k : DedupKey} {c : DedupCache} :
    containsKeyD k c = true ↔ ∃ v, (k, v) ∈ c := by
  rw [containsKeyD, List.any_eq_true]
  constructor
  · rintro ⟨e, he, hk⟩
    rw [decide_eq_true_eq] at hk
    exact ⟨e.2, by rwa [← hk, Prod.mk.eta]⟩
  · rintro ⟨v, hv⟩
    exact ⟨(k, v), hv, by rw [decide_eq_true_eq]⟩

theorem mem_dedup_filter {k : DedupKey} {v t : ℚ} {c : DedupCache} :
    (k, v) ∈ c.filter (fun e => decide (t - e.2 < 5)) ↔
      (k, v) ∈ c ∧ t - v < 5 := by
  rw [List.mem_filter, decide_eq_true_eq]

/-- C3, counterexample.  The claim states that the adapter-level
de-duplicator admits a (channel, payload) pair iff it was not admitted within
the preceding 5 s, and evicts expired entries on each admit call.  The Redis
listener violates both parts: with a key recorded at time 0 still in the
cache (no idle poll has evicted it), an admit call at time 10 rejects the
pair — even though its only admission lies 10 s in the past, well outside the
5 s window — and leaves the expired entry in place. -/
theorem c3_counterexample :
    (redisAdmit [((("T:request:s".toList, [1]) : DedupKey), (0 : ℚ))]
        (("T:request:s".toList, [1]) : DedupKey) 10).1 = false
    ∧ ¬(∃ v : ℚ, ((("T:request:s".toList, [1]) : DedupKey), v) ∈
          [((("T:request:s".toList, [1]) : DedupKey), (0 : ℚ))] ∧
        (10 : ℚ) - v < 5)
    ∧ (redisAdmit [((("T:request:s".toList, [1]) : DedupKey), (0 : ℚ))]
        (("T:request:s".toList, [1]) : DedupKey) 10).2 =
      [((("T:request:s".toList, [1]) : DedupKey), (0 : ℚ))] := by
  refine ⟨by rfl, ?_, by rfl⟩
  rintro ⟨v, hv, hlt⟩
  rw [List.mem_singleton, Prod.mk.injEq] at hv
  rw [hv.2] at hlt
  norm_num at hlt

/-- C3 (amended): the RabbitMQ callback implements the claimed contract — it
admits a pair iff no admission of it lies within the preceding 5 s window,
evicts all expired entries on every admit call, and records the pair with the
current time on admission.  The Redis listener instead admits iff the key is
simply absent from its cache (eviction happens only on idle polls), so a
pair, once admitted, is rejected on every later admit call regardless of
elapsed time, until an idle poll evicts it.  In both adapters a pair surfaced
twice within 5 s causes exactly one `deliver_message` call. -/
theorem c3_dedup_window :
    (∀ (cache : DedupCache) (k : DedupKey) (t : ℚ),
        (rabbitAdmit cache k t).1 = true ↔
          ¬∃ v, (k, v) ∈ cache ∧ t - v < 5)
    ∧ (∀ (cache : DedupCache) (k : DedupKey) (t : ℚ),
        (rabbitAdmit cache k t).2 =
          cache.filter (fun e => decide (t - e.2 < 5)) ++
            (if (rabbitAdmit cache k t).1 then [(k, t)] else []))
    ∧ (∀ (cache : DedupCache) (k : DedupKey) (t : ℚ),
        (redisAdmit cache k t).1 = true ↔ containsKeyD k cache = false)
    ∧ (∀ (cache : DedupCache) (k : DedupKey) (t0 t1 : ℚ),
        (rabbitAdmit cache k t0).1 = true → t1 - t0 < 5 →
          (rabbitAdmit (rabbitAdmit cache k t0).2 k t1).1 = false)
    ∧ (∀ (cache : DedupCache) (k : DedupKey) (t0 t1 : ℚ),
        (redisAdmit cache k t0).1 = true →
          (redisAdmit (redisAdmit cache k t0).2 k t1).1 = false) := by
  have hfst : ∀ (cache : DedupCache) (k : DedupKey) (t : ℚ),
      (rabbitAdmit cache k t).1 = true ↔
        containsKeyD k (cache.filter (fun e => decide (t - e.2 < 5))) =
          false := by
    intro cache k t
    rw [rabbitAdmit]
    by_cases h : containsKeyD k
        (cache.filter (fun e => decide (t - e.2 < 5))) = true
    · rw [if_pos h]
      simp [h]
    · rw [if_neg h]
      simp [Bool.eq_false_iff.2 h]
  have hsnd : ∀ (cache : DedupCache) (k : DedupKey) (t0 : ℚ),
      (rabbitAdmit cache k t0).1 = true →
        (rabbitAdmit cache k t0).2 =
          cache.filter (fun e => decide (t0 - e.2 < 5)) ++ [(k, t0)] := by
    intro cache k t0 hadm
    rw [rabbitAdmit] at hadm ⊢
    by_cases h : containsKeyD k
        (cache.filter (fun e => decide (t0 - e.2 < 5))) = true
    · rw [if_pos h] at hadm
      exact absurd hadm (by simp)
    · rw [if_neg h]
  refine ⟨?_, ?_, ?_, ?_, ?_⟩
  · intro cache k t
    rw [hfst cache k t, Bool.eq_false_iff]
    constructor
    · intro h hex
      rcases hex with ⟨v, hv, hlt⟩
      exact h (containsKeyD_iff.2 ⟨v, mem_dedup_filter.2 ⟨hv, hlt⟩⟩)
    · intro h hcon
      rcases containsKeyD_iff.1 hcon with ⟨v, hv⟩
      rcases mem_dedup_filter.1 hv with ⟨hv2, hlt⟩
      exact h ⟨v, hv2, hlt⟩
  · intro cache k t
    by_cases h : containsKeyD k
        (cache.filter (fun e => decide (t - e.2 < 5))) = true
    · have hadm : (rabbitAdmit cache k t).1 = false := by
        rw [rabbitAdmit, if_pos h]
      rw [hadm]
      rw [rabbitAdmit, if_pos h]
      rw [if_neg (fun hcon => Bool.noConfusion hcon), List.append_nil]
    · have hadm : (rabbitAdmit cache k t).1 = true := by
        rw [rabbitAdmit, if_neg h]
      rw [hadm]
      rw [rabbitAdmit, if_neg h]
      rw [if_pos rfl]
  · intro cache k t
    rw [redisAdmit]
    by_cases h : containsKeyD k cache = true
    · rw [if_pos h]
      simp [h]
    · rw [if_neg h]
      simp [Bool.eq_false_iff.2 h]
  · intro cache k t0 t1 hadm hwin
    rw [hsnd cache k t0 hadm, rabbitAdmit, if_pos]
    exact containsKeyD_iff.2
      ⟨t0, mem_dedup_filter.2
        ⟨List.mem_append_right _ (List.mem_singleton_self _), hwin⟩⟩
  · intro cache k t0 t1 hadm
    have h2 : (redisAdmit cache k t0).2 = cache ++ [(k, t0)] := by
      rw [redisAdmit] at hadm ⊢
      by_cases h : containsKeyD k cache = true
      · rw [if_pos h] at hadm
        exact absurd hadm (by simp)
      · rw [if_neg h]
    rw [h2, redisAdmit, if_pos]
    exact containsKeyD_iff.2
      ⟨t0, List.mem_append_right _ (List.mem_singleton_self _)⟩

/-- C3 witness: a pair admitted by the Redis listener at time 0 is rejected
when it surfaces again at time 1 (within the 5 s window, exactly one
`deliver_message`). -/
theorem c3_dedup_window_witness :
    (redisAdmit [] (("T:request:s".toList, [1]) : DedupKey) 0).1 = true
    ∧ (redisAdmit
        (redisAdmit [] (("T:request:s".toList, [1]) : DedupKey) 0).2
        (("T:request:s".toList, [1]) : DedupKey) 1).1 = false :=
  ⟨by rfl, c3_dedup_window.2.2.2.2 [] (("T:request:s".toList, [1]) : DedupKey)
    0 1 (by rfl)⟩

/-! ## Message codec (routers/base.py lines 198-257)

A message is its concrete type name plus its `model_dump()` body, an ordered
dictionary (association list) from member names to JSON values.  JSON string
values are concrete (`FieldVal.tag`, needed because the reserved `__type__`
member is compared against registry names); all non-string JSON values are
opaque (`FieldVal.body`), since the codec passes them through untouched.
Python's `json.dumps`/`json.loads` byte round-trip on such dictionaries is
standard-library behaviour outside this repository and is treated as the
identity on the parsed object. -/

/-- A dictionary key (a Python string). -/
abbrev Key := List Char

/-- A JSON value as the codec sees it: a string (content concrete) or any
non-string value (opaque payload of type `α`). -/
inductive FieldVal (α : Type) where
  | tag (s : List Char)
  | body (v : α)
deriving DecidableEq

/-- A typed message: concrete class name (`__class__.__name__`) and
`model_dump()` body.  Pydantic construction `cls(**fields)` on an
already-valid body is the identity on the field dictionary (schema
validation is the external collaborator of spec §6). -/
structure Message (α : Type) where
  tyName : List Char
  fields : List (Key × FieldVal α)
deriving DecidableEq

/-- Python dict assignment `d[k] = v`: update in place when the key exists,
else append. -/
def setKeyKV {β : Type} (k : Key) (v : β) (kvs : List (Key × β)) :
    List (Key × β) :=
  if k ∈ kvs.map Prod.fst then
    kvs.map (fun e => if e.1 = k then (k, v) else e)
  else kvs ++ [(k, v)]

/-- Python `d.get(k)` on an association list with unique keys. -/
def lookupKV {β : Type} (k : Key) (kvs : List (Key × β)) : Option β :=
  (kvs.find? (fun e => decide (e.1 = k))).map Prod.snd

/-- Python `del d[k]`. -/
def delKeyKV {β : Type} (k : Key) (kvs : List (Key × β)) : List (Key × β) :=
  kvs.filter (fun e => !decide (e.1 = k))

/-- Errors raised on the embedded code paths.  `valueError` and
`runtimeError` are the Python builtins actually raised by the source;
`messageClassNotRegistered` embeds the exception class of exceptions.py
lines 23-35 (defined with an available-classes diagnostic, but never raised
by `_deserialize_message`); `disallowedOutgoingType` — Modelled from the
spec: the exception name `DisallowedOutgoingType` of spec §4.8/§7, which
exists nowhere under src/. -/
inductive PyErr where
  | valueError (msg : List Char)
  | runtimeError (msg : List Char)
  | messageClassNotRegistered (className : List Char)
      (available : List (List Char))
  | disallowedOutgoingType
deriving DecidableEq

/-- Equality of embedded code results is decidable (used to evaluate the
codec and the agent façade at concrete inputs). -/
instance {ε α : Type} [DecidableEq ε] [DecidableEq α] :
    DecidableEq (Except ε α) := fun x y =>
  match x, y with
  | .ok a, .ok b =>
      match decEq a b with
      | .isTrue h => .isTrue (congrArg Except.ok h)
      | .isFalse h => .isFalse (fun hc => h (Except.ok.inj hc))
  | .error a, .error b =>
      match decEq a b with
      | .isTrue h => .isTrue (congrArg Except.error h)
      | .isFalse h => .isFalse (fun hc => h (Except.error.inj hc))
  | .ok _, .error _ => .isFalse (fun hc => Except.noConfusion hc)
  | .error _, .ok _ => .isFalse (fun hc => Except.noConfusion hc)

/-- `AbstractRouter._serialize_message` (lines 198-211): take the message
body and store the concrete class name under the reserved key `__type__`
(`json.dumps` then encodes this dictionary; see section comment). -/
def serializeMsg {α : Type} [DecidableEq α] (m : Message α) :
    List (Key × FieldVal α) :=
  setKeyKV ("__type__".toList) (.tag m.tyName) m.fields

/-- `AbstractRouter._deserialize_message` (lines 213-257).  `primary` is the
key set of `message_classes` computed from the declared incoming-message
lists of all currently subscribed agents (lines 230-235); `fallback` the
names of all `BaseMessage` subclasses (lines 243-252).  Python's falsy check
`if not message_type` rejects a missing key and an empty string; a non-string
tag never equals a registry name (`truthy`/`pyStr` supply its Python
truthiness and `str` formatting). -/
def deserializeMsg {α : Type} [DecidableEq α] (truthy : α → Bool)
    (pyStr : α → List Char) (primary fallback : List (List Char))
    (kvs : List (Key × FieldVal α)) : Except PyErr (Message α) :=
  match lookupKV ("__type__".toList) kvs with
  | none => .error (.valueError ("Message data missing __type__ field".toList))
  | some (.tag t) =>
      if t = [] then
        .error (.valueError ("Message data missing __type__ field".toList))
      else if t ∈ primary then
        .ok ⟨t, delKeyKV ("__type__".toList) kvs⟩
      else if t ∈ fallback then
        .ok ⟨t, delKeyKV ("__type__".toList) kvs⟩
      else .error (.valueError ("Unknown message type: ".toList ++ t))
  | some (.body v) =>
      if truthy v then
        .error (.valueError ("Unknown message type: ".toList ++ pyStr v))
      else
        .error (.valueError ("Message data missing __type__ field".toList))

theorem lookupKV_append_self {β : Type} {k : Key} {v : β}
    {l : List (Key × β)} (h : k ∉ l.map Prod.fst) :
    lookupKV k (l ++ [(k, v)]) = some v := by
  induction l with
  | nil =>
      rw [List.nil_append, lookupKV, List.find?_cons_of_pos _ (by simp)]
      rfl
  | cons e es ih =>
      have hek : e.1 ≠ k := by
        intro hcon
        apply h
        rw [List.map_cons, ← hcon]
        exact List.mem_cons_self e.1 _
      have hes : k ∉ es.map Prod.fst := by
        intro hcon
        apply h
        rw [List.map_cons]
        exact List.mem_cons_of_mem _ hcon
      rw [List.cons_append, lookupKV,
        List.find?_cons_of_neg _ (by simpa using hek)]
      exact ih hes

theorem delKeyKV_append_self {β : Type} {k : Key} {v : β}
    {l : List (Key × β)} (h : k ∉ l.map Prod.fst) :
    delKeyKV k (l ++ [(k, v)]) = l := by
  rw [delKeyKV, List.filter_append]
  have h1 : l.filter (fun e => !decide (e.1 = k)) = l := by
    rw [List.filter_eq_self]
    intro e he
    have : e.1 ≠ k := by
      intro hcon
      exact h (List.mem_map.2 ⟨e, he, hcon⟩)
    simpa using this
  have h2 : [(k, v)].filter (fun e : Key × β => !decide (e.1 = k)) = [] := by
    simp
  rw [h1, h2, List.append_nil]

theorem serializeMsg_eq_append {α : Type} [DecidableEq α] {m : Message α}
    (h : ("__type__".toList) ∉ m.fields.map Prod.fst) :
    serializeMsg m = m.fields ++ [(("__type__".toList), .tag m.tyName)] := by
  rw [serializeMsg, setKeyKV, if_neg h]

/-- C6: for every well-formed message (non-empty type name, no body member
named `__type__`) whose concrete type name is in the registry computed from
subscribed agents or in the `BaseMessage`-subclass fallback set,
deserialising the serialised form recovers the message exactly:
`decode(encode(m), registry_containing(type_of(m))) = m`. -/
theorem c6_codec_roundtrip {α : Type} [DecidableEq α] (truthy : α → Bool)
    (pyStr : α → List Char) (primary fallback : List (List Char))
    (m : Message α) (hname : m.tyName ≠ [])
    (hfield : ("__type__".toList) ∉ m.fields.map Prod.fst)
    (hreg : m.tyName ∈ primary ∨ m.tyName ∈ fallback) :
    deserializeMsg truthy pyStr primary fallback (serializeMsg m) = .ok m := by
  rw [serializeMsg_eq_append hfield]
  simp only [deserializeMsg, lookupKV_append_self hfield]
  rw [if_neg hname]
  by_cases hp : m.tyName ∈ primary
  · rw [if_pos hp, delKeyKV_append_self hfield]
  · rcases hreg with hreg | hreg
    · exact absurd hreg hp
    · rw [if_neg hp, if_pos hreg, delKeyKV_append_self hfield]

/-- C6 witness: round trip of `SampleMessage(content=5)` with the registry
containing `SampleMessage`. -/
theorem c6_codec_roundtrip_witness :
    deserializeMsg (fun _ : Int => true) (fun _ => [])
      ["SampleMessage".toList] []
      (serializeMsg ⟨"SampleMessage".toList,
        [("content".toList, FieldVal.body (5 : Int))]⟩) =
      .ok ⟨"SampleMessage".toList,
        [("content".toList, FieldVal.body (5 : Int))]⟩ :=
  c6_codec_roundtrip (fun _ : Int => true) (fun _ => [])
    ["SampleMessage".toList] []
    ⟨"SampleMessage".toList, [("content".toList, FieldVal.body (5 : Int))]⟩
    (by decide) (by decide) (Or.inl (by decide))

/-- C7: the claim says an unknown `__type__` tag fails with
`MessageClassNotRegistered` listing the currently known type names.  The
code instead raises the bare builtin
`ValueError(f"Unknown message type: ...")` (routers/base.py line 257) with no
list of known names — even though exceptions.py lines 23-35 define
`MessageClassNotRegistered` with exactly that diagnostic for exactly this
situation.  No message is constructed (the claim is right there).  At the
failing input `{"__type__": "GhostMessage"}` with registry
`{SampleMessage}`: -/
theorem c7_unknown_type_error :
    deserializeMsg (fun _ : Int => true) (fun _ => [])
      ["SampleMessage".toList] []
      [(("__type__".toList), FieldVal.tag ("GhostMessage".toList))] =
      .error (.valueError ("Unknown message type: GhostMessage".toList))
    ∧ deserializeMsg (fun _ : Int => true) (fun _ => [])
        ["SampleMessage".toList] []
        [(("__type__".toList), FieldVal.tag ("GhostMessage".toList))] ≠
      .error (.messageClassNotRegistered ("GhostMessage".toList)
        ["SampleMessage".toList]) := by
  exact ⟨by decide, by decide⟩

/-! ## Agent façade (src/agent_communication/base.py lines 126-163) -/

/-- `BaseAgent.publish(message, channel)` (lines 126-142): require a bound
router (`RuntimeError` otherwise), then `validate_outgoing_message` — the
check `type(message) in self.sending_messages`, by concrete class — raising
`ValueError` on failure, and only then delegate to `router.publish`, which
serialises and calls `_publish_raw(channel, data)`.  The result on success is
the list of backend publish calls made (exactly one). -/
def agentPublish {α : Type} [DecidableEq α] (hasRouter : Bool)
    (agentName : List Char) (sending : List (List Char)) (m : Message α)
    (channel : List Char) :
    Except PyErr (List (List Char × List (Key × FieldVal α))) :=
  if ¬hasRouter then
    .error (.runtimeError ("No router configured for this agent".toList))
  else if m.tyName ∉ sending then
    .error (.valueError ("Agent ".toList ++ agentName ++
      " is not allowed to send messages of type ".toList ++ m.tyName))
  else .ok [(channel, serializeMsg m)]

/-- `BaseAgent.broadcast(message, direction, session_id)` (lines 144-163):
same router and outgoing-type checks, then `router.broadcast`, which builds
the channel from the message class's `get_channel_pattern()` function and
publishes on it. -/
def agentBroadcast {α : Type} [DecidableEq α] (hasRouter : Bool)
    (agentName : List Char) (sending : List (List Char))
    (patternFn : List Char → List Char → List Char) (m : Message α)
    (direction sessionId : List Char) :
    Except PyErr (List (List Char × List (Key × FieldVal α))) :=
  if ¬hasRouter then
    .error (.runtimeError ("No router configured for this agent".toList))
  else if m.tyName ∉ sending then
    .error (.valueError ("Agent ".toList ++ agentName ++
      " is not allowed to send messages of type ".toList ++ m.tyName))
  else .ok [(patternFn direction sessionId, serializeMsg m)]

/-- C8, counterexample.  The claim says publishing a type outside the
outgoing set fails with `DisallowedOutgoingType`; the code raises the builtin
`ValueError("Agent ... is not allowed to send messages of type ...")`
(base.py lines 137-140, 158-161), there is no `DisallowedOutgoingType`
anywhere in the source, and the repository's own integration test expects
`ValueError` (`pytest.raises(ValueError, match="not allowed to send")`). -/
theorem c8_counterexample :
    agentPublish (α := Int) true ("RAgent".toList) []
      ⟨"SampleMessage".toList, []⟩ ("SampleMessage:request:t".toList) =
      .error (.valueError
        ("Agent RAgent is not allowed to send messages of type SampleMessage".toList))
    ∧ agentPublish (α := Int) true ("RAgent".toList) []
        ⟨"SampleMessage".toList, []⟩ ("SampleMessage:request:t".toList) ≠
      .error PyErr.disallowedOutgoingType := by
  exact ⟨by decide, by decide⟩

/-- C8 (amended): for every agent and message whose type is outside the
agent's outgoing set, both `publish` and `broadcast` fail — with the builtin
`ValueError` (not the spec's `DisallowedOutgoingType`, which does not exist
in the code) — and no backend publish call is made: validation precedes any
delegation to the router. -/
theorem c8_outgoing_validation {α : Type} [DecidableEq α]
    (agentName : List Char) (sending : List (List Char)) (m : Message α)
    (channel : List Char) (patternFn : List Char → List Char → List Char)
    (direction sessionId : List Char) (h : m.tyName ∉ sending) :
    agentPublish true agentName sending m channel =
      .error (.valueError ("Agent ".toList ++ agentName ++
        " is not allowed to send messages of type ".toList ++ m.tyName))
    ∧ agentBroadcast true agentName sending patternFn m direction sessionId =
      .error (.valueError ("Agent ".toList ++ agentName ++
        " is not allowed to send messages of type ".toList ++ m.tyName)) := by
  constructor
  · rw [agentPublish, if_neg (by simp), if_pos h]
  · rw [agentBroadcast, if_neg (by simp), if_pos h]

/-- C8 witness: the amended statement at agent `RAgent` with empty outgoing
set and message type `SampleMessage`. -/
theorem c8_outgoing_validation_witness :
    agentPublish (α := Int) true ("RAgent".toList) []
      ⟨"SampleMessage".toList, []⟩ ("SampleMessage:request:t".toList) =
      .error (.valueError
        ("Agent RAgent is not allowed to send messages of type SampleMessage".toList)) :=
  (c8_outgoing_validation (α := Int) ("RAgent".toList) []
    ⟨"SampleMessage".toList, []⟩ ("SampleMessage:request:t".toList)
    (fun d s => d ++ s) ("request".toList) ("t".toList) (by decide)).1

end AgentComm
